import Mathlib

/-!
Verification of the Multi-Agent Debate System core.

This file gives a shallow embedding of the debate engine: the string
utilities and similarity scorer of `nodes/memory_node.py`, the memory and
context views of `state.py`, the validation gate of `nodes/agent_node.py`,
the turn orchestration of `nodes/rounds_controller_node.py`, the judge of
`nodes/judge_node.py`, the configuration model of `config.py`, and the two
drivers (`run_debate.py`, `debate_system.py`).  Python strings are lists of
characters, Python floats are rationals, and Python dictionaries/pydantic
models are structures.  Stateful methods become explicit state-passing
functions.  Theorems at the end of the file settle the frozen claims.
-/

/-- Python strings are modelled as lists of characters. -/
abbrev Str := List Char

/-- `s.lower()`: lowercase every character. -/
def lowerStr (s : Str) : Str := s.map Char.toLower

/-- `s.strip()`: remove leading and trailing whitespace. -/
def stripStr (s : Str) : Str :=
  ((s.dropWhile Char.isWhitespace).reverse.dropWhile Char.isWhitespace).reverse

/-- Auxiliary for `splitWs`: walks the string keeping the (reversed) current
word in `acc`, emitting a word at each whitespace boundary. -/
def splitWsAux : Str → Str → List Str
  | [], acc => if acc = [] then [] else [acc.reverse]
  | c :: cs, acc =>
    if c.isWhitespace then
      if acc = [] then splitWsAux cs [] else acc.reverse :: splitWsAux cs []
    else splitWsAux cs (c :: acc)

/-- `s.split()` with no argument: split on runs of whitespace, discarding
empty pieces. -/
def splitWs (s : Str) : List Str := splitWsAux s []

/-- `set(s.split())`: the set of whitespace-separated words of `s`. -/
def wordSet (s : Str) : Finset Str := (splitWs s).toFinset

/-- Whether `p` begins the string `s`. -/
def startsWithL : Str → Str → Bool
  | [], _ => true
  | _ :: _, [] => false
  | p :: ps, c :: cs => p = c && startsWithL ps cs

/-- Python's `p in s` on strings: substring containment. -/
def containsSub (pat : Str) : Str → Bool
  | [] => startsWithL pat []
  | s@(_ :: rest) => startsWithL pat s || containsSub pat rest

/-- `sep.join(parts)`. -/
def joinSep (sep : Str) : List Str → Str
  | [] => []
  | [x] => x
  | x :: y :: xs => x ++ sep ++ joinSep sep (y :: xs)

/-- Python's `l[-n:]`: the last `n` elements (all of them when `n` exceeds
the length). -/
def lastN (n : Nat) (l : List α) : List α := l.drop (l.length - n)

/-- `t[:100] + "..." if len(t) > 100 else t` (summary truncation in
`DebateMemory._update_summary`). -/
def truncateText (s : Str) : Str :=
  if s.length > 100 then s.take 100 ++ "...".data else s

/-! ### The similarity scorer (`MemoryNode._calculate_similarity`)

`difflib.SequenceMatcher` finds the longest matching run between the two
strings, recurses on the pieces to its left and right, and reports
`2 * matched / (len(a) + len(b))` (or `1.0` when both strings are empty).
The junk heuristics are omitted: they can only shrink the matched blocks of
inputs of length at least 200 and no claim depends on them.  The recursion
is driven by fuel that exceeds its depth (each level strictly decreases the
total length), so the fuel never runs out. -/

/-- Length of the longest common run at the heads of `a` and `b`. -/
def matchRunLen : Str → Str → Nat
  | a :: as, b :: bs => if a = b then matchRunLen as bs + 1 else 0
  | _, _ => 0

/-- For a fixed suffix `sa` of the first string: the pair `(j, k)` where `k`
is the longest run of `sa` matching at some position of `b` and `j` is the
least such position (ties prefer the earlier position, as in
`SequenceMatcher.find_longest_match`). -/
def bestMatchB (sa : Str) : Str → Nat × Nat
  | [] => (0, 0)
  | c :: cs =>
    let k0 := matchRunLen sa (c :: cs)
    let p := bestMatchB sa cs
    if p.2 > k0 then (p.1 + 1, p.2) else (0, k0)

/-- `SequenceMatcher.find_longest_match` over whole strings: the triple
`(i, j, k)` of the longest matching block, `i` least among maximal `k`,
then `j` least. -/
def bestMatchA : Str → Str → Nat × Nat × Nat
  | [], _ => (0, 0, 0)
  | a :: as, b =>
    let q := bestMatchB (a :: as) b
    let r := bestMatchA as b
    if r.2.2 > q.2 then (r.1 + 1, r.2.1, r.2.2) else (0, q.1, q.2)

/-- Total characters covered by the matching blocks
(`SequenceMatcher.get_matching_blocks`): take the longest match, recurse on
the parts before and on the parts after it. -/
def matchedCharsFuel : Nat → Str → Str → Nat
  | 0, _, _ => 0
  | fuel + 1, a, b =>
    let m := bestMatchA a b
    if m.2.2 = 0 then 0
    else
      matchedCharsFuel fuel (a.take m.1) (b.take m.2.1) + m.2.2 +
        matchedCharsFuel fuel (a.drop (m.1 + m.2.2)) (b.drop (m.2.1 + m.2.2))

/-- Matched characters with enough fuel for the whole recursion. -/
def matchedChars (a b : Str) : Nat :=
  matchedCharsFuel (a.length + b.length + 1) a b

/-- `SequenceMatcher.ratio()`: `2 * M / T`, and `1.0` when `T = 0`. -/
def seqMatcherScore (a b : Str) : ℚ :=
  if a.length + b.length = 0 then 1
  else 2 * (matchedChars a b : ℚ) / ((a.length : ℚ) + (b.length : ℚ))

/-- `MemoryNode._calculate_similarity`: normalize (lowercase and strip),
take the sequence-matcher score, and when both normalized strings have
words, also the word-set Jaccard overlap; return the larger.  The
`similarity_cache` is pure memoization and is dropped. -/
def calculateSimilarity (text1 text2 : Str) : ℚ :=
  let n1 := stripStr (lowerStr text1)
  let n2 := stripStr (lowerStr text2)
  let sim := seqMatcherScore n1 n2
  let w1 := wordSet n1
  let w2 := wordSet n2
  if w1 ≠ ∅ ∧ w2 ≠ ∅ then
    max sim (((w1 ∩ w2).card : ℚ) / ((w1 ∪ w2).card : ℚ))
  else sim

/-! ### Data model (`state.py`, `config.py`) -/

/-- The two debate participants (the strings `"AgentA"`/`"AgentB"`). -/
inductive Agent
  | A
  | B
deriving DecidableEq

/-- `DebateStatus`. -/
inductive DebateStatus
  | initialized
  | inProgress
  | completed
  | error
deriving DecidableEq

/-- `TurnRecord` (timestamp and the `meta` mapping carry no logic and are
omitted). -/
structure TurnRecord where
  round : Nat
  agent : Agent
  persona : Str
  text : Str
deriving DecidableEq

/-- `DebateConfig` (`config.py`): a plain pydantic model with no validators;
the fields that no claim touches (seed, log path, personas, LLM settings)
are omitted. -/
structure DebateConfig where
  total_rounds : Int
  similarity_threshold : ℚ
  coherence_threshold : ℚ
deriving DecidableEq

/-- Construction of a `DebateConfig`.  pydantic only coerces the field
types; there are no range validators anywhere in `config.py`, so
construction always succeeds.  `Option` exposes the (absent) failure
channel. -/
def mkDebateConfig (totalRounds : Int) (simThreshold cohThreshold : ℚ) :
    Option DebateConfig :=
  some { total_rounds := totalRounds
         similarity_threshold := simThreshold
         coherence_threshold := cohThreshold }

/-- `DebateMemory` (its unused `next_agent` field is omitted). -/
structure DebateMemory where
  turns : List TurnRecord := []
  summary : Str := []
  current_round : Nat := 0
deriving DecidableEq

/-- `DebateState` (pydantic private fields `_next_step`, `_last_response`,
`_turn_rejected`, `_rejection_reason` and the judge's output strings are
presentation plumbing and are omitted; `winner` and `status` are kept). -/
structure DebateState where
  config : DebateConfig
  topic : Str := []
  status : DebateStatus := DebateStatus.initialized
  agent_a_persona : Str := "scientist".data
  agent_b_persona : Str := "philosopher".data
  current_round : Nat := 0
  next_agent : Agent := Agent.A
  rounds_completed : Nat := 0
  memory : DebateMemory := {}
  winner : Option Agent := none
deriving DecidableEq

/-- A fresh `DebateState` for one exchange with the given config and
topic. -/
def mkInitialState (cfg : DebateConfig) (topic : Str) : DebateState :=
  { config := cfg, topic := topic }

/-! ### Memory (`DebateMemory` methods in `state.py`) -/

/-- The first summary part: `f"Debate is at round {self.current_round}."`. -/
def roundLine (m : DebateMemory) : Str :=
  "Debate is at round ".data ++ (Nat.repr m.current_round).data ++ ".".data

/-- The parts joined by `_update_summary`: the round statement, then the
truncated texts of the `AgentA` turns among the last three turns, then the
same for `AgentB` (a group is skipped when it has no turns). -/
def summaryParts (m : DebateMemory) : List Str :=
  let pointsA := ((lastN 3 m.turns).filter (fun t => t.agent = Agent.A)).map
    (fun t => truncateText t.text)
  let pointsB := ((lastN 3 m.turns).filter (fun t => t.agent = Agent.B)).map
    (fun t => truncateText t.text)
  [roundLine m]
    ++ (if pointsA = [] then []
        else ["AgentA arguments: ".data ++ joinSep " | ".data pointsA])
    ++ (if pointsB = [] then []
        else ["AgentB arguments: ".data ++ joinSep " | ".data pointsB])

/-- `DebateMemory._update_summary` as a function of the memory. -/
def updateSummary (m : DebateMemory) : Str :=
  if m.turns = [] then "Debate not started.".data
  else joinSep " ".data (summaryParts m)

/-- `DebateMemory.add_turn`: append the turn, set `current_round` to the
turn's round, recompute the summary. -/
def addTurn (m : DebateMemory) (t : TurnRecord) : DebateMemory :=
  let m1 : DebateMemory :=
    { m with turns := m.turns ++ [t], current_round := t.round }
  { m1 with summary := updateSummary m1 }

/-- The formatted line `f"[{turn.persona}] {turn.text}"` contributed by one
turn to an agent's context. -/
def turnLine (t : TurnRecord) : Str :=
  "[".data ++ t.persona ++ "] ".data ++ t.text

/-- The turn lines of `DebateMemory.get_agent_context`: among the last four
turns, those of the *other* agent, formatted. -/
def contextTurnLines (m : DebateMemory) (agent : Agent) : List Str :=
  ((lastN 4 m.turns).filter (fun t => t.agent ≠ agent)).map turnLine

/-- `DebateMemory.get_agent_context`: the summary line followed by the
opponent turn lines, joined by newlines. -/
def getAgentContext (m : DebateMemory) (agent : Agent) : Str :=
  joinSep "\n".data
    (("Debate summary: ".data ++ m.summary) :: contextTurnLines m agent)

/-! ### Memory node (`nodes/memory_node.py`) -/

/-- `MemoryNode._check_repetition`: true iff some stored turn's text is
more similar to the candidate than the configured threshold. -/
def checkRepetition (s : DebateState) (newResponse : Str) : Bool :=
  s.memory.turns.any (fun t =>
    decide (s.config.similarity_threshold < calculateSimilarity newResponse t.text))

/-- `MemoryNode.update_memory`: reject on repetition (no state change),
otherwise record the turn at the state's `current_round` and increment
`rounds_completed` once.  The boolean is the method's return value. -/
def updateMemory (s : DebateState) (agent : Agent) (persona : Str)
    (response : Str) : DebateState × Bool :=
  if checkRepetition s response then (s, false)
  else
    let turn : TurnRecord :=
      { round := s.current_round, agent := agent, persona := persona,
        text := response }
    ({ s with memory := addTurn s.memory turn,
              rounds_completed := s.rounds_completed + 1 }, true)

/-! ### Agent node (`nodes/agent_node.py`) -/

/-- The rejection reasons of `AgentNode._validate_response`. -/
inductive VerdictReason
  | empty
  | tooShort
  | tooLong
deriving DecidableEq

/-- `AgentNode._validate_response`: empty after stripping, then length
below 20, then length above 1000; `none` means valid. -/
def validateResponse (response : Str) : Option VerdictReason :=
  if response = [] ∨ stripStr response = [] then some VerdictReason.empty
  else if response.length < 20 then some VerdictReason.tooShort
  else if response.length > 1000 then some VerdictReason.tooLong
  else none

/-- `AgentNode._validate_turn_order`: `AgentA` always opens; afterwards the
state's `next_agent` must match. -/
def validateTurnOrder (agentName : Agent) (s : DebateState) : Bool :=
  if s.memory.turns = [] then agentName = Agent.A
  else s.next_agent = agentName

/-- Outcome of one attempted turn (`AgentNode.run` returns these as
status/error dictionaries). -/
inductive TurnOutcome
  | outOfTurn
  | rejectedEmpty
  | rejectedShort
  | rejectedLong
  | repetitionError
  | success
deriving DecidableEq

/-- The validation-and-record path of `AgentNode.run` after the turn-order
check: `_validate_response`, then `update_memory` (whose repetition check
rejects), and on success the turn has been recorded. -/
def validationGate (s : DebateState) (agent : Agent) (persona response : Str) :
    DebateState × TurnOutcome :=
  match validateResponse response with
  | some VerdictReason.empty => (s, TurnOutcome.rejectedEmpty)
  | some VerdictReason.tooShort => (s, TurnOutcome.rejectedShort)
  | some VerdictReason.tooLong => (s, TurnOutcome.rejectedLong)
  | none =>
    let r := updateMemory s agent persona response
    if r.2 then (r.1, TurnOutcome.success) else (r.1, TurnOutcome.repetitionError)

/-- `AgentNode.run` with `_generate_response` factored out: the produced
`response` text is passed in (the spec treats generation as an opaque
external collaborator). -/
def agentRun (agentName : Agent) (s : DebateState) (response : Str) :
    DebateState × TurnOutcome :=
  if validateTurnOrder agentName s then
    validationGate s agentName
      (if agentName = Agent.A then s.agent_a_persona else s.agent_b_persona)
      response
  else (s, TurnOutcome.outOfTurn)

/-! ### Rounds controller (`nodes/rounds_controller_node.py`) -/

/-- Result of `RoundsControllerNode.run`: hand off to the judge, or advance
to the given agent and round. -/
inductive ControllerOutcome
  | handoffJudge
  | advance (agent : Agent) (round : Nat)
deriving DecidableEq

/-- `RoundsControllerNode.run`: when `rounds_completed` has reached
`total_rounds`, mark the debate completed and hand off to the judge;
otherwise pick the next agent and round from the most recent stored turn
(`AgentA` and round 1 when memory is empty). -/
def roundsControllerRun (s : DebateState) : DebateState × ControllerOutcome :=
  if (s.rounds_completed : Int) ≥ s.config.total_rounds then
    ({ s with status := DebateStatus.completed }, ControllerOutcome.handoffJudge)
  else
    match s.memory.turns.getLast? with
    | none =>
      ({ s with current_round := 1, next_agent := Agent.A },
       ControllerOutcome.advance Agent.A 1)
    | some last =>
      if last.agent = Agent.A then
        ({ s with current_round := s.current_round, next_agent := Agent.B },
         ControllerOutcome.advance Agent.B s.current_round)
      else
        ({ s with current_round := s.current_round + 1, next_agent := Agent.A },
         ControllerOutcome.advance Agent.A (s.current_round + 1))

/-! ### Judge (`nodes/judge_node.py`) -/

/-- The science-register vocabulary of `_assess_argument_quality`. -/
def scientificTerms : List Str :=
  ["evidence".data, "data".data, "study".data, "research".data,
   "empirical".data, "analysis".data, "statistics".data]

/-- The logical-structure markers for the scientist persona. -/
def scienceConnectives : List Str :=
  ["therefore".data, "conclusion".data, "because".data, "since".data]

/-- The example markers for the scientist persona. -/
def scienceExamples : List Str :=
  ["example".data, "instance".data, "case study".data]

/-- The ethics-register vocabulary for the philosopher persona. -/
def philoTerms : List Str :=
  ["ethical".data, "moral".data, "justice".data, "principle".data,
   "virtue".data, "duty".data, "rights".data]

/-- The logical-reasoning markers for the philosopher persona. -/
def philoLogic : List Str :=
  ["argument".data, "premise".data, "conclusion".data, "logic".data,
   "fallacy".data]

/-- The multiple-perspective markers for the philosopher persona. -/
def philoPerspectives : List Str :=
  ["on the other hand".data, "however".data, "consider".data,
   "perspective".data]

/-- Score of one turn inside `_assess_argument_quality`: base 0.5, +0.1 per
persona term contained in the lowered text, +0.1 for a connective, +0.05
for an example marker, −0.2 when the text is shorter than 50 characters,
capped at 1. -/
def turnQuality (persona : Str) (t : TurnRecord) : ℚ :=
  let text := lowerStr t.text
  let s1 : ℚ :=
    if persona = "scientist".data then
      1/2 + (1/10) * ((scientificTerms.filter (fun w => containsSub w text)).length : ℚ)
        + (if scienceConnectives.any (fun w => containsSub w text) then 1/10 else 0)
        + (if scienceExamples.any (fun w => containsSub w text) then 1/20 else 0)
    else if persona = "philosopher".data then
      1/2 + (1/10) * ((philoTerms.filter (fun w => containsSub w text)).length : ℚ)
        + (if philoLogic.any (fun w => containsSub w text) then 1/10 else 0)
        + (if philoPerspectives.any (fun w => containsSub w text) then 1/20 else 0)
    else 1/2
  let s2 := if text.length < 50 then s1 - 1/5 else s1
  min s2 1

/-- `JudgeNode._assess_argument_quality`: 0 with no turns, else the average
of the per-turn scores. -/
def assessArgumentQuality (turns : List TurnRecord) (persona : Str) : ℚ :=
  if turns = [] then 0
  else (turns.map (turnQuality persona)).sum / (turns.length : ℚ)

/-- The stop words excluded by `_assess_coherence`. -/
def commonWordsSet : Finset Str :=
  (["the".data, "a".data, "an".data, "and".data, "or".data, "but".data,
    "in".data, "on".data, "at".data, "to".data, "for".data, "of".data,
    "with".data, "by".data]).toFinset

/-- `JudgeNode._assess_coherence`: 1 with fewer than two turns; otherwise,
for each consecutive pair whose previous turn has stop-word-filtered
keywords, the fraction of those keywords repeated in the current turn,
averaged (1 when no pair contributes). -/
def assessCoherence (turns : List TurnRecord) : ℚ :=
  if turns.length < 2 then 1
  else
    let scores := (turns.zip turns.tail).filterMap (fun p =>
      let prevK := wordSet (lowerStr p.1.text) \ commonWordsSet
      let currK := wordSet (lowerStr p.2.text) \ commonWordsSet
      if prevK ≠ ∅ then some (((prevK ∩ currK).card : ℚ) / (prevK.card : ℚ))
      else none)
    if scores = [] then 1 else scores.sum / (scores.length : ℚ)

/-- `JudgeNode._assess_relevance`: 0 with no turns; otherwise the average
over turns of the fraction of topic tokens present in the turn's tokens,
each turn contributing 0.5 instead when the topic has no tokens. -/
def assessRelevance (turns : List TurnRecord) (topic : Str) : ℚ :=
  if turns = [] then 0
  else
    let topicKeywords := wordSet (lowerStr topic)
    let scores := turns.map (fun t =>
      if topicKeywords ≠ ∅ then
        ((topicKeywords ∩ wordSet (lowerStr t.text)).card : ℚ) /
          (topicKeywords.card : ℚ)
      else 1/2)
    scores.sum / (scores.length : ℚ)

/-- The turns of one agent, in order (`_analyze_debate`'s filters). -/
def agentTurns (s : DebateState) (a : Agent) : List TurnRecord :=
  s.memory.turns.filter (fun t => t.agent = a)

/-- The persona assigned to an agent by the state. -/
def personaOf (s : DebateState) (a : Agent) : Str :=
  if a = Agent.A then s.agent_a_persona else s.agent_b_persona

/-- The overall score computed in `_determine_winner`:
`0.4 * quality + 0.3 * coherence + 0.3 * relevance`. -/
def overallScore (s : DebateState) (a : Agent) : ℚ :=
  (2/5) * assessArgumentQuality (agentTurns s a) (personaOf s a)
    + (3/10) * assessCoherence (agentTurns s a)
    + (3/10) * assessRelevance (agentTurns s a) s.topic

/-- The winner component of `JudgeNode._determine_winner`: strictly higher
overall score wins; an exact tie goes to `AgentA` when its persona is
`"scientist"`, else to `AgentB`. -/
def determineWinner (s : DebateState) : Agent :=
  let sa := overallScore s Agent.A
  let sb := overallScore s Agent.B
  if sa > sb then Agent.A
  else if sb > sa then Agent.B
  else if s.agent_a_persona = "scientist".data then Agent.A
  else Agent.B

/-- `JudgeNode.run`'s state mutation: set the winner and mark the debate
completed (the summary and reasoning strings, and the non-fatal
incompleteness warning appended to `errors`, are presentation output). -/
def judgeRun (s : DebateState) : DebateState :=
  { s with winner := some (determineWinner s),
           status := DebateStatus.completed }

/-! ### Drivers -/

/-- The LangGraph driver of `run_debate.py`: from the controller, either
hand off to the judge and stop, or run the selected agent's turn (with
`producer` supplying the externally generated text) and come back to the
controller.  `fuel` bounds the number of controller visits. -/
def graphLoop (producer : DebateState → Agent → Str) : Nat → DebateState → DebateState
  | 0, s => s
  | fuel + 1, s =>
    let r := roundsControllerRun s
    match r.2 with
    | ControllerOutcome.handoffJudge => judgeRun r.1
    | ControllerOutcome.advance a _ =>
      graphLoop producer fuel (agentRun a r.1 (producer r.1 a)).1

/-- One iteration of the round loop in `DebateSystem.run`
(`debate_system.py` lines 66–88): set `next_agent` by the parity of
`round_num`, set `current_round`, run the agent, and on success increment
`rounds_completed` once more (line 86), on top of the increment already
performed inside `update_memory`. -/
def debateSystemIteration (s : DebateState) (roundNum : Nat) (response : Str) :
    DebateState :=
  let ag := if roundNum % 2 = 1 then Agent.A else Agent.B
  let s1 := { s with next_agent := ag, current_round := roundNum }
  let r := agentRun ag s1 response
  if r.2 = TurnOutcome.success then
    { r.1 with rounds_completed := r.1.rounds_completed + 1 }
  else r.1

/-! ### Substring lemmas -/

theorem startsWithL_iff : ∀ (p s : Str), startsWithL p s = true ↔ ∃ v, s = p ++ v
  | [], s => by simp [startsWithL]
  | x :: ps, [] => by simp [startsWithL]
  | x :: ps, c :: cs => by
    simp only [startsWithL, Bool.and_eq_true, decide_eq_true_eq, List.cons_append,
      List.cons.injEq]
    constructor
    · rintro ⟨rfl, h⟩
      obtain ⟨v, rfl⟩ := (startsWithL_iff ps cs).1 h
      exact ⟨v, rfl, rfl⟩
    · rintro ⟨v, h1, h2⟩
      exact ⟨h1.symm, (startsWithL_iff ps cs).2 ⟨v, h2⟩⟩

theorem containsSub_iff (p : Str) : ∀ s : Str,
    containsSub p s = true ↔ ∃ u v, s = u ++ p ++ v := by
  intro s
  induction s with
  | nil =>
    simp only [containsSub, startsWithL_iff]
    constructor
    · rintro ⟨v, hv⟩
      exact ⟨[], v, by simpa using hv⟩
    · rintro ⟨u, v, huv⟩
      obtain ⟨h1, h2⟩ := List.append_eq_nil.1 huv.symm
      obtain ⟨h3, h4⟩ := List.append_eq_nil.1 h1
      exact ⟨v, by simp [h4, h2]⟩
  | cons c cs ih =>
    simp only [containsSub, Bool.or_eq_true, startsWithL_iff, ih]
    constructor
    · rintro (⟨v, hv⟩ | ⟨u, v, huv⟩)
      · exact ⟨[], v, by simpa using hv⟩
      · exact ⟨c :: u, v, by simp [huv]⟩
    · rintro ⟨u, v, huv⟩
      match u, huv with
      | [], huv => exact Or.inl ⟨v, by simpa using huv⟩
      | c' :: u', huv =>
        simp only [List.cons_append, List.cons.injEq] at huv
        exact Or.inr ⟨u', v, huv.2⟩

theorem containsSub_of_piece (u p v : Str) : containsSub p (u ++ p ++ v) = true :=
  (containsSub_iff p _).2 ⟨u, v, rfl⟩

theorem containsSub_refl (p : Str) : containsSub p p = true := by
  simpa using containsSub_of_piece [] p []

theorem containsSub_trans {x y z : Str} (h1 : containsSub x y = true)
    (h2 : containsSub y z = true) : containsSub x z = true := by
  obtain ⟨u, v, huv⟩ := (containsSub_iff x y).1 h1
  obtain ⟨u', v', rfl⟩ := (containsSub_iff y z).1 h2
  subst huv
  exact (containsSub_iff x _).2 ⟨u' ++ u, v ++ v', by simp [List.append_assoc]⟩

theorem containsSub_append_left (w : Str) {x s : Str}
    (h : containsSub x s = true) : containsSub x (w ++ s) = true := by
  obtain ⟨u, v, rfl⟩ := (containsSub_iff x s).1 h
  exact (containsSub_iff x _).2 ⟨w ++ u, v, by simp [List.append_assoc]⟩

theorem containsSub_append_right (w : Str) {x s : Str}
    (h : containsSub x s = true) : containsSub x (s ++ w) = true := by
  obtain ⟨u, v, rfl⟩ := (containsSub_iff x s).1 h
  exact (containsSub_iff x _).2 ⟨u, v ++ w, by simp [List.append_assoc]⟩

theorem containsSub_joinSep (sep x : Str) :
    ∀ l : List Str, x ∈ l → containsSub x (joinSep sep l) = true
  | [], h => absurd h (List.not_mem_nil x)
  | [y], h => by
    rcases List.mem_singleton.1 h with rfl
    simpa [joinSep] using containsSub_refl x
  | y :: z :: l, h => by
    rcases List.mem_cons.1 h with rfl | h'
    · simpa [joinSep, List.append_assoc] using
        containsSub_of_piece [] x (sep ++ joinSep sep (z :: l))
    · have ih := containsSub_joinSep sep x (z :: l) h'
      simpa [joinSep, List.append_assoc] using
        containsSub_append_left (y ++ sep) ih

/-! ### Similarity-scorer lemmas (claim C5 groundwork) -/

theorem matchRunLen_le_left : ∀ a b : Str, matchRunLen a b ≤ a.length
  | [], _ => by simp [matchRunLen]
  | _ :: _, [] => by simp [matchRunLen]
  | a :: as, b :: bs => by
    simp only [matchRunLen, List.length_cons]
    split
    · exact Nat.succ_le_succ (matchRunLen_le_left as bs)
    · exact Nat.zero_le _

theorem matchRunLen_le_right : ∀ a b : Str, matchRunLen a b ≤ b.length
  | [], _ => by simp [matchRunLen]
  | _ :: _, [] => by simp [matchRunLen]
  | a :: as, b :: bs => by
    simp only [matchRunLen, List.length_cons]
    split
    · exact Nat.succ_le_succ (matchRunLen_le_right as bs)
    · exact Nat.zero_le _

theorem matchRunLen_self : ∀ l : Str, matchRunLen l l = l.length
  | [] => rfl
  | c :: cs => by simp [matchRunLen, matchRunLen_self cs]

theorem bestMatchB_k_le (sa : Str) : ∀ b : Str, (bestMatchB sa b).2 ≤ sa.length
  | [] => by simp [bestMatchB]
  | c :: cs => by
    simp only [bestMatchB]
    split
    · exact bestMatchB_k_le sa cs
    · exact matchRunLen_le_left sa (c :: cs)

theorem bestMatchB_jk_le (sa : Str) :
    ∀ b : Str, (bestMatchB sa b).1 + (bestMatchB sa b).2 ≤ b.length
  | [] => by simp [bestMatchB]
  | c :: cs => by
    simp only [bestMatchB, List.length_cons]
    split
    · have := bestMatchB_jk_le sa cs
      omega
    · have := matchRunLen_le_right sa (c :: cs)
      simpa using this

theorem bestMatchA_ik_le : ∀ a b : Str,
    (bestMatchA a b).1 + (bestMatchA a b).2.2 ≤ a.length
  | [], _ => by simp [bestMatchA]
  | a :: as, b => by
    simp only [bestMatchA, List.length_cons]
    split
    · dsimp only
      have := bestMatchA_ik_le as b
      omega
    · dsimp only
      have := bestMatchB_k_le (a :: as) b
      simp only [List.length_cons] at this
      omega

theorem bestMatchA_jk_le : ∀ a b : Str,
    (bestMatchA a b).2.1 + (bestMatchA a b).2.2 ≤ b.length
  | [], _ => by simp [bestMatchA]
  | a :: as, b => by
    simp only [bestMatchA]
    split
    · dsimp only
      exact bestMatchA_jk_le as b
    · dsimp only
      exact bestMatchB_jk_le (a :: as) b

theorem bestMatchB_self : ∀ l : Str, bestMatchB l l = (0, l.length)
  | [] => rfl
  | c :: cs => by
    have hk : (bestMatchB (c :: cs) cs).2 ≤ cs.length := by
      have := bestMatchB_jk_le (c :: cs) cs
      omega
    simp only [bestMatchB, matchRunLen_self]
    rw [if_neg (by simp only [List.length_cons]; omega)]

theorem bestMatchA_self : ∀ l : Str, bestMatchA l l = (0, 0, l.length)
  | [] => rfl
  | c :: cs => by
    have hk : (bestMatchA cs (c :: cs)).2.2 ≤ cs.length := by
      have := bestMatchA_ik_le cs (c :: cs)
      omega
    simp only [bestMatchA, bestMatchB_self]
    rw [if_neg (by simp only [List.length_cons]; omega)]

theorem matchedCharsFuel_nil_left : ∀ (f : Nat) (b : Str),
    matchedCharsFuel f [] b = 0
  | 0, _ => rfl
  | f + 1, b => by simp [matchedCharsFuel, bestMatchA]

theorem matchedCharsFuel_self : ∀ (f : Nat) (l : Str),
    matchedCharsFuel (f + 1) l l = l.length := by
  intro f l
  simp only [matchedCharsFuel, bestMatchA_self]
  split
  · omega
  · simp [matchedCharsFuel_nil_left, List.drop_length]

theorem matchedChars_self (l : Str) : matchedChars l l = l.length :=
  matchedCharsFuel_self (l.length + l.length) l

theorem matchedCharsFuel_le_left : ∀ (f : Nat) (a b : Str),
    matchedCharsFuel f a b ≤ a.length := by
  intro f
  induction f with
  | zero => intro a b; simp [matchedCharsFuel]
  | succ f ih =>
    intro a b
    simp only [matchedCharsFuel]
    split
    · exact Nat.zero_le _
    · have h1 := ih (a.take (bestMatchA a b).1) (b.take (bestMatchA a b).2.1)
      have h2 := ih (a.drop ((bestMatchA a b).1 + (bestMatchA a b).2.2))
        (b.drop ((bestMatchA a b).2.1 + (bestMatchA a b).2.2))
      have h3 := bestMatchA_ik_le a b
      simp only [List.length_take, List.length_drop] at h1 h2
      omega

theorem matchedCharsFuel_le_right : ∀ (f : Nat) (a b : Str),
    matchedCharsFuel f a b ≤ b.length := by
  intro f
  induction f with
  | zero => intro a b; simp [matchedCharsFuel]
  | succ f ih =>
    intro a b
    simp only [matchedCharsFuel]
    split
    · exact Nat.zero_le _
    · have h1 := ih (a.take (bestMatchA a b).1) (b.take (bestMatchA a b).2.1)
      have h2 := ih (a.drop ((bestMatchA a b).1 + (bestMatchA a b).2.2))
        (b.drop ((bestMatchA a b).2.1 + (bestMatchA a b).2.2))
      have h3 := bestMatchA_jk_le a b
      simp only [List.length_take, List.length_drop] at h1 h2
      omega

theorem matchedChars_le_left (a b : Str) : matchedChars a b ≤ a.length :=
  matchedCharsFuel_le_left _ a b

theorem matchedChars_le_right (a b : Str) : matchedChars a b ≤ b.length :=
  matchedCharsFuel_le_right _ a b

theorem seqMatcherScore_self (l : Str) : seqMatcherScore l l = 1 := by
  unfold seqMatcherScore
  rcases Nat.eq_zero_or_pos l.length with h | h
  · simp [h]
  · rw [if_neg (by omega), matchedChars_self]
    have hn : ((l.length : ℚ) + (l.length : ℚ)) ≠ 0 := by
      have h0 : (0 : ℚ) < (l.length : ℚ) := by exact_mod_cast h
      linarith
    field_simp
    ring

theorem seqMatcherScore_nonneg (a b : Str) : 0 ≤ seqMatcherScore a b := by
  unfold seqMatcherScore
  split
  · norm_num
  · apply div_nonneg <;> positivity

theorem seqMatcherScore_le_one (a b : Str) : seqMatcherScore a b ≤ 1 := by
  unfold seqMatcherScore
  split
  · norm_num
  next h =>
    have hd : (0 : ℚ) < (a.length : ℚ) + (b.length : ℚ) := by
      have : 0 < a.length + b.length := Nat.pos_of_ne_zero h
      exact_mod_cast this
    rw [div_le_one hd]
    have h1 := matchedChars_le_left a b
    have h2 := matchedChars_le_right a b
    have : 2 * matchedChars a b ≤ a.length + b.length := by omega
    exact_mod_cast this

theorem jaccard_le_one {w1 w2 : Finset Str} (h : w1 ≠ ∅) :
    ((w1 ∩ w2).card : ℚ) / ((w1 ∪ w2).card : ℚ) ≤ 1 := by
  have hne : (w1 ∪ w2).Nonempty :=
    (Finset.nonempty_iff_ne_empty.2 h).mono Finset.subset_union_left
  have hpos : (0 : ℚ) < ((w1 ∪ w2).card : ℚ) := by
    exact_mod_cast Finset.card_pos.2 hne
  rw [div_le_one hpos]
  exact_mod_cast Finset.card_le_card
    (Finset.inter_subset_left.trans Finset.subset_union_left)

theorem calculateSimilarity_nonneg (a b : Str) : 0 ≤ calculateSimilarity a b := by
  simp only [calculateSimilarity]
  split
  · exact le_max_of_le_left (seqMatcherScore_nonneg _ _)
  · exact seqMatcherScore_nonneg _ _

theorem calculateSimilarity_le_one (a b : Str) : calculateSimilarity a b ≤ 1 := by
  simp only [calculateSimilarity]
  split
  next hw => exact max_le (seqMatcherScore_le_one _ _) (jaccard_le_one hw.1)
  next => exact seqMatcherScore_le_one _ _

theorem calculateSimilarity_self_norm (a b : Str)
    (h : stripStr (lowerStr a) = stripStr (lowerStr b)) :
    calculateSimilarity a b = 1 := by
  simp only [calculateSimilarity, h, seqMatcherScore_self]
  split
  next hw => exact max_eq_left (jaccard_le_one hw.1)
  next => rfl

/-! ### Concrete fixtures for witnesses and counterexamples -/

/-- A configuration with the source defaults of `config.py`. -/
def demoConfig : DebateConfig :=
  { total_rounds := 8, similarity_threshold := 19/20, coherence_threshold := 7/10 }

/-- A fresh exchange state over the demo configuration. -/
def freshState : DebateState := mkInitialState demoConfig ("test topic".data)

/-- A zero-round state: the controller completes immediately. -/
def zeroRoundState : DebateState :=
  mkInitialState { demoConfig with total_rounds := 0 } []

/-- A response long enough to pass the length checks. -/
def demoResponse : Str := "Evidence supports strong regulation.".data

/-! ### Claim C1: turn-order transition rule -/

/-- C1: when `rounds_completed < total_rounds`, the controller picks
`AgentA` and round 1 on empty memory; otherwise, after a stored `AgentA`
turn it picks `AgentB` with the round unchanged, and after a stored
`AgentB` turn it picks `AgentA` with the round incremented. -/
theorem roundsController_turn_order (s : DebateState)
    (h : (s.rounds_completed : Int) < s.config.total_rounds) :
    (s.memory.turns = [] →
      (roundsControllerRun s).1.next_agent = Agent.A ∧
      (roundsControllerRun s).1.current_round = 1) ∧
    (∀ ts t, s.memory.turns = ts ++ [t] →
      (t.agent = Agent.A →
        (roundsControllerRun s).1.next_agent = Agent.B ∧
        (roundsControllerRun s).1.current_round = s.current_round) ∧
      (t.agent = Agent.B →
        (roundsControllerRun s).1.next_agent = Agent.A ∧
        (roundsControllerRun s).1.current_round = s.current_round + 1)) := by
  have hlt : ¬ ((s.rounds_completed : Int) ≥ s.config.total_rounds) := not_le.2 h
  constructor
  · intro hemp
    simp [roundsControllerRun, hlt, hemp]
  · intro ts t hts
    have hlast : s.memory.turns.getLast? = some t := by
      rw [hts]; exact List.getLast?_concat _
    constructor
    · intro ha
      simp [roundsControllerRun, hlt, hlast, ha]
    · intro hb
      simp [roundsControllerRun, hlt, hlast, hb]

/-- Witness for C1: on a fresh state the hypothesis holds and the first
transition goes to `AgentA`, round 1. -/
theorem roundsController_turn_order_witness :
    ((freshState.rounds_completed : Int) < freshState.config.total_rounds) ∧
    (roundsControllerRun freshState).1.next_agent = Agent.A ∧
    (roundsControllerRun freshState).1.current_round = 1 :=
  ⟨by decide, (roundsController_turn_order freshState (by decide)).1 rfl⟩

/-! ### Claim C2: round accounting (code bug: double increment) -/

/-- C2: evaluation at the failing input.  One successful loop iteration of
`DebateSystem.run` on a fresh state leaves `rounds_completed = 2` while
memory holds a single turn, because `update_memory` already increments the
counter (memory_node.py line 44) and the driver increments it again
(debate_system.py line 86).  `update_memory` alone keeps the claimed
invariant `rounds_completed = number of stored turns`. -/
theorem debateSystem_double_increment :
    (debateSystemIteration freshState 1 demoResponse).rounds_completed = 2 ∧
    (debateSystemIteration freshState 1 demoResponse).memory.turns.length = 1 ∧
    (updateMemory freshState Agent.A freshState.agent_a_persona demoResponse).1.rounds_completed = 1 ∧
    (updateMemory freshState Agent.A freshState.agent_a_persona demoResponse).1.memory.turns.length = 1 := by
  refine ⟨?_, ?_, ?_, ?_⟩ <;> rfl

/-! ### Claim C4: completion hands off to the judge -/

/-- C4: once `rounds_completed ≥ total_rounds` the controller marks the
debate completed and hands off to the judge, and the driver loop then only
runs the judge: the stored turns never change afterwards. -/
theorem roundLimit_hands_off_to_judge (s : DebateState)
    (h : (s.rounds_completed : Int) ≥ s.config.total_rounds) :
    (roundsControllerRun s).2 = ControllerOutcome.handoffJudge ∧
    (roundsControllerRun s).1.status = DebateStatus.completed ∧
    ∀ (producer : DebateState → Agent → Str) (fuel : Nat), 0 < fuel →
      (graphLoop producer fuel s).memory.turns = s.memory.turns ∧
      (graphLoop producer fuel s).status = DebateStatus.completed ∧
      (graphLoop producer fuel s).rounds_completed = s.rounds_completed := by
  refine ⟨by simp [roundsControllerRun, h], by simp [roundsControllerRun, h], ?_⟩
  intro producer fuel hf
  match fuel, hf with
  | fuel + 1, _ => simp [graphLoop, roundsControllerRun, h, judgeRun]

/-- Witness for C4 on a zero-round state: the loop immediately judges and
no turn is ever stored. -/
theorem roundLimit_witness :
    ((zeroRoundState.rounds_completed : Int) ≥ zeroRoundState.config.total_rounds) ∧
    (graphLoop (fun _ _ => []) 1 zeroRoundState).status = DebateStatus.completed ∧
    (graphLoop (fun _ _ => []) 1 zeroRoundState).memory.turns = [] :=
  ⟨by decide,
   ((roundLimit_hands_off_to_judge zeroRoundState (by decide)).2.2
     (fun _ _ => []) 1 (by decide)).2.1,
   ((roundLimit_hands_off_to_judge zeroRoundState (by decide)).2.2
     (fun _ _ => []) 1 (by decide)).1.trans rfl⟩

/-! ### Claim C5: similarity identity and bounds -/

/-- C5: `similarity(a, a) = 1`, similarity always lies in `[0, 1]`, and any
two inputs that agree after lowercasing and stripping score 1. -/
theorem similarity_identity_and_bounds :
    (∀ a : Str, calculateSimilarity a a = 1) ∧
    (∀ a b : Str, 0 ≤ calculateSimilarity a b ∧ calculateSimilarity a b ≤ 1) ∧
    (∀ a b : Str, stripStr (lowerStr a) = stripStr (lowerStr b) →
      calculateSimilarity a b = 1) :=
  ⟨fun a => calculateSimilarity_self_norm a a rfl,
   fun a b => ⟨calculateSimilarity_nonneg a b, calculateSimilarity_le_one a b⟩,
   fun a b h => calculateSimilarity_self_norm a b h⟩

/-- Witness for C5: two texts identical after normalization score 1. -/
theorem similarity_identity_witness :
    stripStr (lowerStr ("Ab ".data)) = stripStr (lowerStr (" ab".data)) ∧
    calculateSimilarity ("Ab ".data) (" ab".data) = 1 :=
  ⟨by decide, similarity_identity_and_bounds.2.2 _ _ (by decide)⟩

/-! ### Claim C3: the validation gate -/

theorem checkRepetition_iff (s : DebateState) (r : Str) :
    checkRepetition s r = true ↔
      ∃ t ∈ s.memory.turns,
        s.config.similarity_threshold < calculateSimilarity r t.text := by
  simp [checkRepetition, List.any_eq_true]

/-- C3: the gate checks, in order and short-circuiting: empty after
stripping, length below 20, length above 1000, then repetition, which
rejects exactly when some stored turn's similarity strictly exceeds the
threshold; a candidate passing all four is accepted and appended to
memory. -/
theorem validation_gate_order (s : DebateState) (a : Agent) (p r : Str) :
    ((validationGate s a p r).2 = TurnOutcome.rejectedEmpty ↔ stripStr r = []) ∧
    ((validationGate s a p r).2 = TurnOutcome.rejectedShort ↔
      stripStr r ≠ [] ∧ r.length < 20) ∧
    ((validationGate s a p r).2 = TurnOutcome.rejectedLong ↔
      stripStr r ≠ [] ∧ 20 ≤ r.length ∧ 1000 < r.length) ∧
    ((validationGate s a p r).2 = TurnOutcome.repetitionError ↔
      stripStr r ≠ [] ∧ 20 ≤ r.length ∧ r.length ≤ 1000 ∧
      ∃ t ∈ s.memory.turns,
        s.config.similarity_threshold < calculateSimilarity r t.text) ∧
    ((validationGate s a p r).2 = TurnOutcome.success ↔
      stripStr r ≠ [] ∧ 20 ≤ r.length ∧ r.length ≤ 1000 ∧
      ∀ t ∈ s.memory.turns,
        calculateSimilarity r t.text ≤ s.config.similarity_threshold) ∧
    ((validationGate s a p r).1.memory.turns =
      if (validationGate s a p r).2 = TurnOutcome.success then
        s.memory.turns ++
          [{ round := s.current_round, agent := a, persona := p, text := r }]
      else s.memory.turns) := by
  by_cases h1 : stripStr r = []
  · have hg : validationGate s a p r = (s, TurnOutcome.rejectedEmpty) := by
      simp [validationGate, validateResponse, h1]
    rw [hg]
    exact ⟨iff_of_true rfl h1,
      iff_of_false (by simp) (fun h => h.1 h1),
      iff_of_false (by simp) (fun h => h.1 h1),
      iff_of_false (by simp) (fun h => h.1 h1),
      iff_of_false (by simp) (fun h => h.1 h1),
      by simp⟩
  · have hr : r ≠ [] := fun h0 => h1 (by rw [h0]; rfl)
    by_cases h2 : r.length < 20
    · have hg : validationGate s a p r = (s, TurnOutcome.rejectedShort) := by
        simp [validationGate, validateResponse, hr, h1, h2]
      rw [hg]
      exact ⟨iff_of_false (by simp) (fun h => h1 h),
        iff_of_true rfl ⟨h1, h2⟩,
        iff_of_false (by simp) (fun h => absurd h.2.1 (by omega)),
        iff_of_false (by simp) (fun h => absurd h.2.1 (by omega)),
        iff_of_false (by simp) (fun h => absurd h.2.1 (by omega)),
        by simp⟩
    · by_cases h3 : r.length > 1000
      · have hg : validationGate s a p r = (s, TurnOutcome.rejectedLong) := by
          simp [validationGate, validateResponse, hr, h1, h2, h3]
        rw [hg]
        exact ⟨iff_of_false (by simp) (fun h => h1 h),
          iff_of_false (by simp) (fun h => h2 h.2),
          iff_of_true rfl ⟨h1, by omega, h3⟩,
          iff_of_false (by simp) (fun h => absurd h.2.2.1 (by omega)),
          iff_of_false (by simp) (fun h => absurd h.2.2.1 (by omega)),
          by simp⟩
      · have hnone : validateResponse r = none := by
          simp [validateResponse, hr, h1, h2, h3]
        by_cases hrep : checkRepetition s r = true
        · have hg : validationGate s a p r = (s, TurnOutcome.repetitionError) := by
            simp [validationGate, hnone, updateMemory, hrep]
          rw [hg]
          exact ⟨iff_of_false (by simp) (fun h => h1 h),
            iff_of_false (by simp) (fun h => h2 h.2),
            iff_of_false (by simp) (fun h => absurd h.2.2 (by omega)),
            iff_of_true rfl ⟨h1, by omega, by omega, (checkRepetition_iff s r).1 hrep⟩,
            iff_of_false (by simp) (fun h => by
              obtain ⟨t, ht, hgt⟩ := (checkRepetition_iff s r).1 hrep
              exact absurd hgt (not_lt.2 (h.2.2.2 t ht))),
            by simp⟩
        · have hrep' : checkRepetition s r = false := by
            simpa using hrep
          have hall : ∀ t ∈ s.memory.turns,
              calculateSimilarity r t.text ≤ s.config.similarity_threshold := by
            intro t ht
            by_contra hc
            exact hrep ((checkRepetition_iff s r).2 ⟨t, ht, not_le.1 hc⟩)
          have hg : validationGate s a p r =
              ({ s with
                  memory := addTurn s.memory
                    { round := s.current_round, agent := a, persona := p, text := r },
                  rounds_completed := s.rounds_completed + 1 },
               TurnOutcome.success) := by
            simp [validationGate, hnone, updateMemory, hrep']
          rw [hg]
          exact ⟨iff_of_false (by simp) (fun h => h1 h),
            iff_of_false (by simp) (fun h => h2 h.2),
            iff_of_false (by simp) (fun h => absurd h.2.2 (by omega)),
            iff_of_false (by simp) (fun h => hrep ((checkRepetition_iff s r).2 h.2.2.2)),
            iff_of_true rfl ⟨h1, by omega, by omega, hall⟩,
            by simp [addTurn]⟩

/-- Witness for C3: a fresh state accepts a well-formed response. -/
theorem validation_gate_witness :
    (validationGate freshState Agent.A ("scientist".data) demoResponse).2 =
      TurnOutcome.success :=
  ((validation_gate_order freshState Agent.A ("scientist".data)
    demoResponse).2.2.2.2.1).mpr (by decide)

/-! ### Claim C6: context isolation -/

/-- An `AgentA` turn used in the context-isolation counterexample. -/
def ownTurn : TurnRecord :=
  { round := 1, agent := Agent.A, persona := "scientist".data,
    text := "quark zeppelin argument".data }

/-- Memory holding only `AgentA`'s own turn, built through `add_turn` so
the summary is the derived one. -/
def ownMemory : DebateMemory := addTurn {} ownTurn

/-- C6 counterexample: the context handed to `AgentA` contains the text of
`AgentA`'s own turn, carried in by the leading summary line. -/
theorem context_contains_own_text :
    containsSub ownTurn.text (getAgentContext ownMemory Agent.A) = true := by
  decide

/-- Helper: a substring of a member of the summary parts is a substring of
the summary. -/
theorem contains_of_part_piece {x part : Str} {m : DebateMemory}
    (hp : part ∈ summaryParts m) (hx : containsSub x part = true)
    (h : m.turns ≠ []) : containsSub x (updateSummary m) = true := by
  have hs : updateSummary m = joinSep " ".data (summaryParts m) := by
    simp [updateSummary, h]
  rw [hs]
  exact containsSub_trans hx (containsSub_joinSep _ _ _ hp)

/-- C6 amended: every turn line of the context comes from one of the last
four stored turns belonging to the *other* participant, and each such
opponent turn contributes its line, whose text then occurs in the context.
The leading summary line, however, can carry the participant's own turn
texts (see the counterexample), so the isolation holds for the explicitly
quoted turn lines only. -/
theorem context_turn_lines_isolated (m : DebateMemory) (a : Agent) :
    (∀ l ∈ contextTurnLines m a,
      ∃ t, t ∈ lastN 4 m.turns ∧ t.agent ≠ a ∧ l = turnLine t) ∧
    (∀ t ∈ lastN 4 m.turns, t.agent ≠ a →
      turnLine t ∈ contextTurnLines m a ∧
      containsSub t.text (getAgentContext m a) = true) := by
  constructor
  · intro l hl
    simp only [contextTurnLines, List.mem_map, List.mem_filter] at hl
    obtain ⟨t, ⟨ht1, ht2⟩, rfl⟩ := hl
    exact ⟨t, ht1, by simpa using ht2, rfl⟩
  · intro t ht hne
    have hmem : turnLine t ∈ contextTurnLines m a := by
      simp only [contextTurnLines, List.mem_map, List.mem_filter]
      exact ⟨t, ⟨ht, by simpa using hne⟩, rfl⟩
    refine ⟨hmem, ?_⟩
    have h1 : containsSub t.text (turnLine t) = true := by
      simpa [turnLine, List.append_assoc] using
        containsSub_of_piece ("[".data ++ t.persona ++ "] ".data) t.text []
    have h2 : containsSub (turnLine t) (getAgentContext m a) = true := by
      unfold getAgentContext
      exact containsSub_joinSep _ _ _ (List.mem_cons_of_mem _ hmem)
    exact containsSub_trans h1 h2

/-- An opposing turn for the C6 witness. -/
def oppTurn : TurnRecord :=
  { round := 1, agent := Agent.B, persona := "philosopher".data,
    text := "liberty matters most".data }

/-- Memory holding one turn of each agent. -/
def twoTurnMemory : DebateMemory := addTurn (addTurn {} ownTurn) oppTurn

/-- Witness for the amended C6: the opponent's text occurs in `AgentA`'s
context. -/
theorem context_turn_lines_witness :
    containsSub oppTurn.text (getAgentContext twoTurnMemory Agent.A) = true :=
  ((context_turn_lines_isolated twoTurnMemory Agent.A).2 oppTurn (by decide)
    (by decide)).2

/-! ### Claim C7: summary recomputation -/

/-- Four alternating turns for the summary counterexample. -/
def turnA1 : TurnRecord :=
  { round := 1, agent := Agent.A, persona := "scientist".data,
    text := "alpha one point".data }

/-- First `AgentB` turn of the fixture. -/
def turnB1 : TurnRecord :=
  { round := 1, agent := Agent.B, persona := "philosopher".data,
    text := "beta one point".data }

/-- Second `AgentA` turn of the fixture. -/
def turnA2 : TurnRecord :=
  { round := 2, agent := Agent.A, persona := "scientist".data,
    text := "alpha two point".data }

/-- Second `AgentB` turn of the fixture. -/
def turnB2 : TurnRecord :=
  { round := 2, agent := Agent.B, persona := "philosopher".data,
    text := "beta two point".data }

/-- Memory with four alternating turns appended through `add_turn`. -/
def fourTurnMemory : DebateMemory :=
  addTurn (addTurn (addTurn (addTurn {} turnA1) turnB1) turnA2) turnB2

/-- C7 counterexample: after four alternating turns, `AgentA` has two
turns, both among its three most recent, yet the summary misses the text
of the earlier one: the code summarizes the last three turns *overall*
before grouping per agent. -/
theorem summary_misses_recent_own_turn :
    containsSub (truncateText turnA1.text) fourTurnMemory.summary = false := by
  decide

/-- C7 amended: the summary of an empty memory says the debate has not
started; otherwise it contains the current-round statement and the
100-character-truncated text of each of the last three turns *overall*
(grouped per participant) — not of the three most recent turns of each
participant. -/
theorem summary_content (m : DebateMemory) :
    (m.turns = [] → updateSummary m = "Debate not started.".data) ∧
    (m.turns ≠ [] →
      containsSub (roundLine m) (updateSummary m) = true ∧
      ∀ t ∈ lastN 3 m.turns,
        containsSub (truncateText t.text) (updateSummary m) = true) := by
  constructor
  · intro h
    simp [updateSummary, h]
  · intro h
    constructor
    · refine contains_of_part_piece ?_ (containsSub_refl _) h
      simp [summaryParts]
    · intro t ht
      cases hag : t.agent with
      | A =>
        set pts := ((lastN 3 m.turns).filter (fun t => t.agent = Agent.A)).map
          (fun t => truncateText t.text) with hpts
        have hmem : truncateText t.text ∈ pts := by
          rw [hpts]
          exact List.mem_map_of_mem _ (List.mem_filter.2 ⟨ht, by simp [hag]⟩)
        have hne : pts ≠ [] := fun h0 => (List.not_mem_nil _) (h0 ▸ hmem)
        have hpart : ("AgentA arguments: ".data ++ joinSep " | ".data pts) ∈
            summaryParts m := by
          simp [summaryParts, ← hpts, hne]
        exact contains_of_part_piece hpart
          (containsSub_append_left _ (containsSub_joinSep _ _ _ hmem)) h
      | B =>
        set pts := ((lastN 3 m.turns).filter (fun t => t.agent = Agent.B)).map
          (fun t => truncateText t.text) with hpts
        have hmem : truncateText t.text ∈ pts := by
          rw [hpts]
          exact List.mem_map_of_mem _ (List.mem_filter.2 ⟨ht, by simp [hag]⟩)
        have hne : pts ≠ [] := fun h0 => (List.not_mem_nil _) (h0 ▸ hmem)
        have hpart : ("AgentB arguments: ".data ++ joinSep " | ".data pts) ∈
            summaryParts m := by
          simp [summaryParts, ← hpts, hne]
        exact contains_of_part_piece hpart
          (containsSub_append_left _ (containsSub_joinSep _ _ _ hmem)) h

/-- Witness for the amended C7: the most recent `AgentA` text does appear
in the recomputed summary of the four-turn memory. -/
theorem summary_content_witness :
    fourTurnMemory.turns ≠ [] ∧
    containsSub (truncateText turnA2.text) (updateSummary fourTurnMemory) = true :=
  ⟨by decide, ((summary_content fourTurnMemory).2 (by decide)).2 turnA2 (by decide)⟩

/-! ### Claim C8: judging an empty exchange -/

/-- C8 counterexample: judging zero turns gives `AgentA` an overall score
of `0.4·0 + 0.3·1 + 0.3·0 = 0.3`, not the claimed `0.0`. -/
theorem empty_judge_score_not_zero :
    overallScore freshState Agent.A = 3/10 ∧
    ¬ overallScore freshState Agent.A = 0 := by
  have hA : agentTurns freshState Agent.A = [] := rfl
  have h : overallScore freshState Agent.A = 3/10 := by
    simp [overallScore, hA, assessArgumentQuality, assessCoherence, assessRelevance]
  exact ⟨h, by rw [h]; norm_num⟩

/-- C8 amended: judging an exchange with zero turns never fails and gives
both participants quality 0, coherence 1 (vacuous), relevance 0, hence
overall 0.3 each, and the deterministic tie-break winner: `AgentA` when
its persona is `"scientist"`, else `AgentB`. -/
theorem empty_judge_scores (s : DebateState) (h : s.memory.turns = []) :
    assessArgumentQuality (agentTurns s Agent.A) (personaOf s Agent.A) = 0 ∧
    assessArgumentQuality (agentTurns s Agent.B) (personaOf s Agent.B) = 0 ∧
    assessCoherence (agentTurns s Agent.A) = 1 ∧
    assessCoherence (agentTurns s Agent.B) = 1 ∧
    assessRelevance (agentTurns s Agent.A) s.topic = 0 ∧
    assessRelevance (agentTurns s Agent.B) s.topic = 0 ∧
    overallScore s Agent.A = 3/10 ∧
    overallScore s Agent.B = 3/10 ∧
    (judgeRun s).winner =
      some (if s.agent_a_persona = "scientist".data then Agent.A else Agent.B) ∧
    (judgeRun s).status = DebateStatus.completed := by
  have hA : agentTurns s Agent.A = [] := by simp [agentTurns, h]
  have hB : agentTurns s Agent.B = [] := by simp [agentTurns, h]
  have hoA : overallScore s Agent.A = 3/10 := by
    simp [overallScore, hA, assessArgumentQuality, assessCoherence, assessRelevance]
  have hoB : overallScore s Agent.B = 3/10 := by
    simp [overallScore, hB, assessArgumentQuality, assessCoherence, assessRelevance]
  have hw : determineWinner s =
      (if s.agent_a_persona = "scientist".data then Agent.A else Agent.B) := by
    simp [determineWinner, hoA, hoB]
  refine ⟨by simp [hA, assessArgumentQuality], by simp [hB, assessArgumentQuality],
    by simp [hA, assessCoherence], by simp [hB, assessCoherence],
    by simp [hA, assessRelevance], by simp [hB, assessRelevance],
    hoA, hoB, ?_, rfl⟩
  simp [judgeRun, hw]

/-- Witness for the amended C8 at the fresh state (zero turns, scientist
persona for `AgentA`). -/
theorem empty_judge_scores_witness :
    freshState.memory.turns = [] ∧
    (judgeRun freshState).winner = some Agent.A ∧
    overallScore freshState Agent.B = 3/10 :=
  ⟨rfl,
   by
    have hh := (empty_judge_scores freshState rfl).2.2.2.2.2.2.2.2.1
    simpa [freshState, mkInitialState] using hh,
   (empty_judge_scores freshState rfl).2.2.2.2.2.2.2.1⟩

/-! ### Claim C9: configuration validation -/

/-- C9 counterexample: constructing a configuration with
`total_rounds = 0` (< 1), `similarity_threshold = 3/2` (∉ (0,1]) and
`coherence_threshold = -1` (∉ [0,1]) succeeds: nothing fails at creation
time. -/
theorem invalid_config_accepted :
    mkDebateConfig 0 (3/2) (-1) =
      some { total_rounds := 0, similarity_threshold := 3/2,
             coherence_threshold := -1 } := rfl

/-- C9 amended: `DebateConfig` construction performs no range validation:
it succeeds for all values, storing them unchanged (the response-length
bounds are the constants 20/1000 of the agent validator, not configuration
fields).  A non-positive `total_rounds` then surfaces mid-exchange: the
controller hands off to the judge before any turn runs. -/
theorem config_construction_total (tr : Int) (st ct : ℚ) :
    (∃ cfg, mkDebateConfig tr st ct = some cfg ∧ cfg.total_rounds = tr ∧
      cfg.similarity_threshold = st ∧ cfg.coherence_threshold = ct) ∧
    (tr ≤ 0 → ∀ topic : Str,
      (roundsControllerRun (mkInitialState
        { total_rounds := tr, similarity_threshold := st,
          coherence_threshold := ct } topic)).2 =
        ControllerOutcome.handoffJudge) := by
  refine ⟨⟨_, rfl, rfl, rfl, rfl⟩, ?_⟩
  intro htr topic
  have h0 : ((mkInitialState
      { total_rounds := tr, similarity_threshold := st,
        coherence_threshold := ct } topic).rounds_completed : Int) ≥
      (mkInitialState
      { total_rounds := tr, similarity_threshold := st,
        coherence_threshold := ct } topic).config.total_rounds := by
    show ((0 : Nat) : Int) ≥ tr
    omega
  simp [roundsControllerRun, h0]

/-- Witness for the amended C9: a zero-round configuration is accepted and
immediately completes. -/
theorem config_construction_witness :
    ((0 : Int) ≤ 0) ∧
    (roundsControllerRun (mkInitialState
      { total_rounds := 0, similarity_threshold := 1/2,
        coherence_threshold := 1/2 } [])).2 = ControllerOutcome.handoffJudge :=
  ⟨by decide, (config_construction_total 0 (1/2) (1/2)).2 (by decide) []⟩

/-! ### Claim C10: relevance fallback on an empty topic -/

theorem sum_map_const_half (l : List TurnRecord) :
    (l.map (fun _ => (1/2 : ℚ))).sum = (l.length : ℚ) * (1/2) := by
  induction l with
  | nil => simp
  | cons x xs ih =>
    simp [ih]
    ring

/-- C10: when the topic has no tokens, each turn contributes the 0.5
fallback, so the relevance score of any participant with at least one turn
is exactly one half — not the fraction-of-topic-tokens value. -/
theorem relevance_empty_topic (turns : List TurnRecord) (topic : Str)
    (h1 : wordSet (lowerStr topic) = ∅) (h2 : turns ≠ []) :
    assessRelevance turns topic = 1/2 := by
  have hlen0 : turns.length ≠ 0 := fun h0 => h2 (List.length_eq_zero.1 h0)
  have hlen : (turns.length : ℚ) ≠ 0 := Nat.cast_ne_zero.2 hlen0
  simp only [assessRelevance, if_neg h2, h1]
  simp only [ne_eq, not_true_eq_false, if_false, List.length_map]
  rw [sum_map_const_half]
  field_simp
  ring

/-- Witness for C10: the empty topic with a single turn scores one half. -/
theorem relevance_empty_topic_witness :
    wordSet (lowerStr []) = ∅ ∧ ([ownTurn] : List TurnRecord) ≠ [] ∧
    assessRelevance [ownTurn] [] = 1/2 :=
  ⟨by decide, by decide, relevance_empty_topic [ownTurn] [] (by decide) (by decide)⟩
